import Mathlib

/-!
# The pocketfft plan adapter (`pocketfft_wrapper.cpp`)

A shallow embedding of the C-linkage adapter around `pocketfft::c2c`.

* Pointers are natural numbers (byte addresses); the null pointer is `0`.
* `int` arguments are integers, `size_t` values are naturals below `2 ^ 64`,
  and the cast `(size_t)n` is reduction modulo `2 ^ 64`.
* The heap of `malloc` blocks, the plan records stored in them, the complex
  cells of the caller's buffers and the sequence of kernel calls are the
  components of an explicit program state.
* The value returned by `malloc` is an input of the operation that calls it
  (`0` is the failed allocation).
* Behaviour that C leaves undefined (a dangling handle, an uninitialised
  field, releasing a block that is not live) is the result `none`.
* The type `C` stands for `std::complex<float>` and `F` for `float`; the
  adapter never inspects a `C` and uses only the literal `1.0f` of `F`.
-/

namespace PocketFFT

/-! ## Data model -/

/-- The number of bytes of a `float`. -/
def sizeof_float : Nat := 4

/-- The value of `sizeof(std::complex<float>)`: two consecutive floats, no padding. -/
def sizeof_complex_float : Nat := 2 * sizeof_float

/-- The value of `sizeof(struct pocketfft_plan_s)` on an LP64 target. -/
def sizeof_pocketfft_plan_s : Nat := 32

/-- The record `struct pocketfft_plan_s`. A field is `none` until it has been
assigned: `malloc` does not initialise the block it returns. -/
structure pocketfft_plan_s where
  n : Option Nat
  in_ : Option Nat
  out : Option Nat
  forward : Option Bool
deriving DecidableEq, Repr

/-- The contents of a freshly allocated record: no field assigned. -/
def pocketfft_plan_s.uninit : pocketfft_plan_s :=
  { n := none, in_ := none, out := none, forward := none }

/-- The arguments of one call of `pocketfft::c2c`, in the order of its parameters. -/
structure C2CArgs (F : Type) where
  shape : List Nat
  stride_in : List Int
  stride_out : List Int
  axes : List Nat
  forward : Bool
  data_in : Nat
  data_out : Nat
  fct : F
deriving DecidableEq, Repr

/-- The program state the adapter acts on. -/
structure State (C F : Type) where
  /-- The live heap blocks: base address to size in bytes. -/
  blocks : Nat → Option Nat
  /-- The plan records held in heap blocks, by base address. -/
  plans : Nat → Option pocketfft_plan_s
  /-- The complex cells of the buffers, by the byte address of the cell. -/
  mem : Nat → C
  /-- The calls of the external kernel made so far, oldest first. -/
  c2c_calls : List (C2CArgs F)

/-- The numeric part of the kernel: a function of the call's arguments and of
the samples read from the input buffer, giving the sample to store at each
output index. -/
abbrev Transform (C F : Type) := C2CArgs F → List C → Nat → C

/-- The C cast `(size_t)n` of an `int` on a target with a 64-bit `size_t`. -/
def size_t_of_int (n : Int) : Nat := (n % 2 ^ 64).toNat

/-! ## The process allocator -/

/-- The call `malloc(size)` whose result is `r`: a failed allocation (`r = 0`)
changes nothing, a successful one makes the block at `r` live and
uninitialised. -/
def malloc {C F : Type} (st : State C F) (r : Nat) (size : Nat) : State C F × Nat :=
  if r = 0 then (st, 0)
  else ({ st with blocks := Function.update st.blocks r (some size)
                  plans := Function.update st.plans r none }, r)

/-- The call `free(p)`: nothing for the null pointer, the release of the block
at `p` when it is live, undefined otherwise. -/
def free {C F : Type} (st : State C F) (p : Nat) : Option (State C F) :=
  if p = 0 then some st
  else if (st.blocks p).isSome then
    some { st with blocks := Function.update st.blocks p none
                   plans := Function.update st.plans p none }
  else none

/-! ## The external kernel -/

/-- The byte address of element `i` of a strided buffer. -/
def elem_addr (base : Nat) (stride : Int) (i : Nat) : Nat :=
  ((base : Int) + stride * (i : Int)).toNat

/-- The `n` samples of a strided buffer, in index order. -/
def load {C : Type} (mem : Nat → C) (base : Nat) (stride : Int) (n : Nat) : List C :=
  (List.range n).map (fun i => mem (elem_addr base stride i))

/-- The memory after storing `y 0 .. y (n-1)` into a strided buffer, in index order. -/
def store {C : Type} (mem : Nat → C) (base : Nat) (stride : Int) (y : Nat → C) : Nat → Nat → C
  | 0 => mem
  | k + 1 => Function.update (store mem base stride y k) (elem_addr base stride k) (y k)

/-- Modelled from the spec: the external kernel `pocketfft::c2c` of
`pocketfft_hdronly.h`, which is not part of the adapter. For a one-dimensional
call along axis 0 it reads the `shape[0]` samples of the input buffer at the
input stride, applies the numeric transform, and writes `shape[0]` samples to
the output buffer at the output stride; it touches neither the heap nor the
plan records. Calls of any other shape are outside the model (`none`). -/
def c2c {C F : Type} (xfm : Transform C F) (args : C2CArgs F) (st : State C F) :
    Option (State C F) :=
  match args.shape, args.stride_in, args.stride_out, args.axes with
  | [n], [si], [so], [0] =>
    let x := load st.mem args.data_in si n
    some { st with mem := store st.mem args.data_out so (xfm args x) n
                   c2c_calls := st.c2c_calls ++ [args] }
  | _, _, _, _ => none

/-! ## The adapter -/

/-- The function `pocketfft_malloc`: a pass-through to `malloc`. -/
def pocketfft_malloc {C F : Type} (st : State C F) (r : Nat) (n : Nat) : State C F × Nat :=
  malloc st r n

/-- The function `pocketfft_free`: a pass-through to `free`. -/
def pocketfft_free {C F : Type} (st : State C F) (p : Nat) : Option (State C F) :=
  free st p

/-- The assignment `plan->field = v` on the record of a live block. -/
def assign {C F : Type} (st : State C F) (plan : Nat)
    (f : pocketfft_plan_s → pocketfft_plan_s) : State C F :=
  let p := (st.plans plan).getD pocketfft_plan_s.uninit
  { st with plans := Function.update st.plans plan (some (f p)) }

/-- The function `pocketfft_plan_dft_1d(n, in, out, sign, flags)`; `r` is the
value its call of `malloc` returns. -/
def pocketfft_plan_dft_1d {C F : Type} (st : State C F) (r : Nat)
    (n : Int) (in_ out : Nat) (sign : Int) (flags : Nat) : State C F × Nat :=
  let (st, plan) := malloc st r sizeof_pocketfft_plan_s
  if plan = 0 then (st, 0)
  else
    let st := assign st plan (fun p => { p with n := some (size_t_of_int n) })
    let st := assign st plan (fun p => { p with in_ := some in_ })
    let st := assign st plan (fun p => { p with out := some out })
    let st := assign st plan (fun p => { p with forward := some (decide (sign = -1)) })
    (st, plan)

/-- The function `pocketfft_execute(plan)`. Reading a field of a record that
does not exist or is not assigned is undefined. -/
def pocketfft_execute {C F : Type} [One F] (xfm : Transform C F) (st : State C F)
    (plan : Nat) : Option (State C F) :=
  if plan = 0 then some st
  else do
    let p ← st.plans plan
    let shape := [← p.n]
    let stride_in : List Int := [(sizeof_complex_float : Int)]
    let stride_out : List Int := [(sizeof_complex_float : Int)]
    let axes : List Nat := [0]
    c2c xfm
      { shape := shape
        stride_in := stride_in
        stride_out := stride_out
        axes := axes
        forward := ← p.forward
        data_in := ← p.in_
        data_out := ← p.out
        fct := 1 }
      st

/-- The function `pocketfft_destroy_plan(plan)`. -/
def pocketfft_destroy_plan {C F : Type} (st : State C F) (plan : Nat) : Option (State C F) :=
  if plan ≠ 0 then free st plan
  else some st

/-- A state with no heap block, no plan record, every cell zero and no kernel call. -/
def State.init (C F : Type) [Zero C] : State C F :=
  { blocks := fun _ => none, plans := fun _ => none, mem := fun _ => 0, c2c_calls := [] }

/-- Modelled from the spec: the numeric transform of the external kernel,
taken as the exact unnormalized discrete Fourier transform. With `N` the number
of input samples and `w = root N` the principal `N`-th root of unity, output `k`
is `fct * Σ_j x[j] * w ^ (-j * k)` for a forward call and
`fct * Σ_j x[j] * w ^ (j * k)` for an inverse call; nothing is divided by `N`. -/
def dft {C F : Type} [Field C] [SMul F C] (root : Nat → C) : Transform C F :=
  fun args x k =>
    let w := if args.forward then (root x.length)⁻¹ else root x.length
    args.fct • Finset.sum (Finset.range x.length) (fun j => x.getD j 0 * w ^ (j * k))

/-- A state whose cells at 64 and 72 hold the samples `3` and `5`. -/
def State.sample (C F : Type) [Zero C] [NatCast C] : State C F :=
  { blocks := fun _ => none, plans := fun _ => none,
    mem := fun a => if a = 64 then 3 else if a = 72 then 5 else 0, c2c_calls := [] }

/-- The exact transform over the rationals for lengths up to two, where `-1` is
the primitive square root of unity. -/
def dft2 : Transform ℚ ℚ := dft (fun _ => -1)

/-- The sample state after a forward plan of length two from 64 to 128 has
been created in the block at 16. -/
def State.planned : State ℚ ℚ :=
  (pocketfft_plan_dft_1d (State.sample ℚ ℚ) 16 2 64 128 (-1) 0).1

/-! ## Plan creation -/

section Creation

variable {C F : Type}

/-- A failed allocation: the null handle and the state as it was. -/
theorem plan_dft_1d_null (st : State C F) (n : Int) (in_ out : Nat) (sign : Int) (flags : Nat) :
    pocketfft_plan_dft_1d st 0 n in_ out sign flags = (st, 0) := by
  simp [pocketfft_plan_dft_1d, malloc]

/-- A successful allocation at `r`: the block at `r` is live and its record has
the four fields assigned. -/
theorem plan_dft_1d_ok (st : State C F) {r : Nat} (hr : r ≠ 0) (n : Int) (in_ out : Nat)
    (sign : Int) (flags : Nat) :
    pocketfft_plan_dft_1d st r n in_ out sign flags =
      ({ st with
          blocks := Function.update st.blocks r (some sizeof_pocketfft_plan_s)
          plans := Function.update st.plans r
            (some { n := some (size_t_of_int n), in_ := some in_, out := some out,
                    forward := some (decide (sign = -1)) }) }, r) := by
  simp [pocketfft_plan_dft_1d, malloc, hr, assign, pocketfft_plan_s.uninit]

/-- The record a successful creation leaves behind the returned handle. -/
theorem plan_dft_1d_record (st : State C F) {r : Nat} (hr : r ≠ 0) (n : Int) (in_ out : Nat)
    (sign : Int) (flags : Nat) :
    (pocketfft_plan_dft_1d st r n in_ out sign flags).1.plans
        (pocketfft_plan_dft_1d st r n in_ out sign flags).2 =
      some { n := some (size_t_of_int n), in_ := some in_, out := some out,
             forward := some (decide (sign = -1)) } := by
  rw [plan_dft_1d_ok st hr]
  exact Function.update_same _ _ _

theorem plan_dft_1d_handle (st : State C F) {r : Nat} (hr : r ≠ 0) (n : Int) (in_ out : Nat)
    (sign : Int) (flags : Nat) :
    (pocketfft_plan_dft_1d st r n in_ out sign flags).2 = r := by
  rw [plan_dft_1d_ok st hr]

theorem plan_dft_1d_mem (st : State C F) (r : Nat) (n : Int) (in_ out : Nat)
    (sign : Int) (flags : Nat) :
    (pocketfft_plan_dft_1d st r n in_ out sign flags).1.mem = st.mem := by
  by_cases hr : r = 0
  · subst hr
    rw [plan_dft_1d_null]
  · rw [plan_dft_1d_ok st hr]

theorem size_t_of_int_nonneg {n : Int} (h0 : 0 ≤ n) (h1 : n < 2 ^ 64) :
    size_t_of_int n = n.toNat := by
  unfold size_t_of_int
  rw [Int.emod_eq_of_lt h0 h1]

theorem size_t_of_int_neg {n : Int} (h0 : -2 ^ 64 ≤ n) (h1 : n < 0) :
    (size_t_of_int n : Int) = 2 ^ 64 + n := by
  unfold size_t_of_int
  have h : n % 2 ^ 64 = 2 ^ 64 + n := by
    rw [← Int.add_mul_emod_self (a := n) (b := 1) (c := 2 ^ 64)]
    rw [Int.emod_eq_of_lt] <;> omega
  rw [h, Int.toNat_of_nonneg (by omega)]

/-- C1: when the allocation succeeds, the plan returned by `pocketfft_plan_dft_1d`
has `forward = true` exactly when `sign = -1`, and `forward = false` for every
other sign. -/
theorem plan_dft_1d_forward_iff_sign (st : State C F) (r : Nat) (hr : r ≠ 0) (n : Int)
    (in_ out : Nat) (sign : Int) (flags : Nat) :
    ∃ p : pocketfft_plan_s,
      (pocketfft_plan_dft_1d st r n in_ out sign flags).1.plans
          (pocketfft_plan_dft_1d st r n in_ out sign flags).2 = some p ∧
        (p.forward = some true ↔ sign = -1) ∧ (sign ≠ -1 → p.forward = some false) := by
  refine ⟨_, plan_dft_1d_record st hr n in_ out sign flags, ?_, ?_⟩ <;> simp

/-- The direction mapping at `sign = -1` and at `sign = 42` on the sample state. -/
theorem plan_dft_1d_forward_iff_sign_sample :
    (16 : Nat) ≠ 0 ∧
      (∃ p : pocketfft_plan_s,
        (pocketfft_plan_dft_1d (State.sample ℚ ℚ) 16 2 64 128 (-1) 0).1.plans
            (pocketfft_plan_dft_1d (State.sample ℚ ℚ) 16 2 64 128 (-1) 0).2 = some p ∧
          (p.forward = some true ↔ (-1 : Int) = -1) ∧
          ((-1 : Int) ≠ -1 → p.forward = some false)) ∧
      (∃ p : pocketfft_plan_s,
        (pocketfft_plan_dft_1d (State.sample ℚ ℚ) 16 2 64 128 42 0).1.plans
            (pocketfft_plan_dft_1d (State.sample ℚ ℚ) 16 2 64 128 42 0).2 = some p ∧
          (p.forward = some true ↔ (42 : Int) = -1) ∧
          ((42 : Int) ≠ -1 → p.forward = some false)) ∧
      ((pocketfft_plan_dft_1d (State.sample ℚ ℚ) 16 2 64 128 (-1) 0).1.plans 16).bind
          pocketfft_plan_s.forward = some true ∧
      ((pocketfft_plan_dft_1d (State.sample ℚ ℚ) 16 2 64 128 1 0).1.plans 16).bind
          pocketfft_plan_s.forward = some false :=
  ⟨by decide,
    plan_dft_1d_forward_iff_sign (State.sample ℚ ℚ) 16 (by decide) 2 64 128 (-1) 0,
    plan_dft_1d_forward_iff_sign (State.sample ℚ ℚ) 16 (by decide) 2 64 128 42 0, rfl, rfl⟩

/-- C5: `pocketfft_plan_dft_1d` returns the null handle exactly when the
allocation fails; a failed call leaves the whole state as it was (no record, no
field written), a successful one returns a non-null handle to a record with
all four fields assigned. -/
theorem plan_dft_1d_null_iff_alloc_fails (st : State C F) (r : Nat) (n : Int)
    (in_ out : Nat) (sign : Int) (flags : Nat) :
    ((pocketfft_plan_dft_1d st r n in_ out sign flags).2 = 0 ↔ r = 0) ∧
      (r = 0 → (pocketfft_plan_dft_1d st r n in_ out sign flags).1 = st) ∧
      (r ≠ 0 →
        (pocketfft_plan_dft_1d st r n in_ out sign flags).2 ≠ 0 ∧
        ∃ (len i o : Nat) (fwd : Bool),
          (pocketfft_plan_dft_1d st r n in_ out sign flags).1.plans
              (pocketfft_plan_dft_1d st r n in_ out sign flags).2 =
            some { n := some len, in_ := some i, out := some o, forward := some fwd }) := by
  by_cases hr : r = 0
  · subst hr
    simp [plan_dft_1d_null]
  · refine ⟨?_, fun h => absurd h hr, fun _ => ⟨?_, _, _, _, _,
      plan_dft_1d_record st hr n in_ out sign flags⟩⟩
    · simp [plan_dft_1d_handle st hr, hr]
    · simp [plan_dft_1d_handle st hr, hr]

/-- C6: for a length `n ≥ 0`, a successful `pocketfft_plan_dft_1d` records
exactly `n` as the transform length and exactly the given references as input
and output buffer, in that order. -/
theorem plan_dft_1d_records_arguments (st : State C F) (r : Nat) (hr : r ≠ 0) (n : Int)
    (hn0 : 0 ≤ n) (hn : n < 2 ^ 31) (in_ out : Nat) (sign : Int) (flags : Nat) :
    ∃ (len : Nat) (fwd : Bool),
      (pocketfft_plan_dft_1d st r n in_ out sign flags).1.plans
          (pocketfft_plan_dft_1d st r n in_ out sign flags).2 =
        some { n := some len, in_ := some in_, out := some out, forward := some fwd } ∧
      (len : Int) = n := by
  refine ⟨_, _, plan_dft_1d_record st hr n in_ out sign flags, ?_⟩
  rw [size_t_of_int_nonneg hn0 (by omega), Int.toNat_of_nonneg hn0]

/-- The recorded fields for `n = 2`, `in = 64`, `out = 128` on the sample state. -/
theorem plan_dft_1d_records_arguments_sample :
    (16 : Nat) ≠ 0 ∧ (0 : Int) ≤ 2 ∧ (2 : Int) < 2 ^ 31 ∧
      (∃ (len : Nat) (fwd : Bool),
        (pocketfft_plan_dft_1d (State.sample ℚ ℚ) 16 2 64 128 (-1) 0).1.plans
            (pocketfft_plan_dft_1d (State.sample ℚ ℚ) 16 2 64 128 (-1) 0).2 =
          some { n := some len, in_ := some 64, out := some 128, forward := some fwd } ∧
        (len : Int) = 2) ∧
      (pocketfft_plan_dft_1d (State.sample ℚ ℚ) 16 2 64 128 (-1) 0).1.plans 16 =
        some { n := some 2, in_ := some 64, out := some 128, forward := some true } :=
  ⟨by decide, by decide, by decide,
    plan_dft_1d_records_arguments (State.sample ℚ ℚ) 16 (by decide) 2 (by decide) (by decide)
      64 128 (-1) 0, rfl⟩

/-- C7: the `flags` argument is ignored: two calls of `pocketfft_plan_dft_1d`
that differ only in `flags` give the same handle and the same state, hence
the same result under `pocketfft_execute`. -/
theorem plan_dft_1d_flags_ignored [One F] (st : State C F) (r : Nat) (n : Int)
    (in_ out : Nat) (sign : Int) (f1 f2 : Nat) :
    pocketfft_plan_dft_1d st r n in_ out sign f1 = pocketfft_plan_dft_1d st r n in_ out sign f2 ∧
      ∀ xfm : Transform C F,
        pocketfft_execute xfm (pocketfft_plan_dft_1d st r n in_ out sign f1).1
            (pocketfft_plan_dft_1d st r n in_ out sign f1).2 =
          pocketfft_execute xfm (pocketfft_plan_dft_1d st r n in_ out sign f2).1
            (pocketfft_plan_dft_1d st r n in_ out sign f2).2 :=
  ⟨rfl, fun _ => rfl⟩

/-- C10: no length is rejected: for every 32-bit `n`, a successful
`pocketfft_plan_dft_1d` returns a non-null handle whose recorded length is
`n mod 2 ^ 64`; it is `0` for `n = 0`, and for `n < 0` it is `2 ^ 64 + n`, which
differs from `n` and is at least `2 ^ 64 - 2 ^ 31` (for `n = -1`,
`18446744073709551615`). -/
theorem plan_dft_1d_length_wraps (st : State C F) (r : Nat) (hr : r ≠ 0) (n : Int)
    (hlo : -2 ^ 31 ≤ n) (hhi : n < 2 ^ 31) (in_ out : Nat) (sign : Int) (flags : Nat) :
    (pocketfft_plan_dft_1d st r n in_ out sign flags).2 ≠ 0 ∧
      ∃ (len : Nat) (p : pocketfft_plan_s),
        (pocketfft_plan_dft_1d st r n in_ out sign flags).1.plans
            (pocketfft_plan_dft_1d st r n in_ out sign flags).2 = some p ∧
          p.n = some len ∧
          (len : Int) = n % 2 ^ 64 ∧
          (n = 0 → len = 0) ∧
          (n < 0 → (len : Int) = 2 ^ 64 + n ∧ (len : Int) ≠ n ∧ 2 ^ 64 - 2 ^ 31 ≤ len) ∧
          (n = -1 → len = 18446744073709551615) := by
  refine ⟨by simp [plan_dft_1d_handle st hr, hr], size_t_of_int n, _,
    plan_dft_1d_record st hr n in_ out sign flags, rfl, ?_, ?_, ?_, ?_⟩
  · unfold size_t_of_int
    exact Int.toNat_of_nonneg (Int.emod_nonneg _ (by norm_num))
  · rintro rfl
    rfl
  · intro hneg
    have h := size_t_of_int_neg (n := n) (by omega) hneg
    refine ⟨h, by omega, ?_⟩
    omega
  · rintro rfl
    rfl

/-- The recorded length for `n = -1` on the sample state. -/
theorem plan_dft_1d_length_wraps_sample :
    (16 : Nat) ≠ 0 ∧ (-2 ^ 31 : Int) ≤ -1 ∧ (-1 : Int) < 2 ^ 31 ∧
      ((pocketfft_plan_dft_1d (State.sample ℚ ℚ) 16 (-1) 64 128 (-1) 0).2 ≠ 0 ∧
        ∃ (len : Nat) (p : pocketfft_plan_s),
          (pocketfft_plan_dft_1d (State.sample ℚ ℚ) 16 (-1) 64 128 (-1) 0).1.plans
              (pocketfft_plan_dft_1d (State.sample ℚ ℚ) 16 (-1) 64 128 (-1) 0).2 = some p ∧
            p.n = some len ∧
            (len : Int) = -1 % 2 ^ 64 ∧
            ((-1 : Int) = 0 → len = 0) ∧
            ((-1 : Int) < 0 →
              (len : Int) = 2 ^ 64 + -1 ∧ (len : Int) ≠ -1 ∧ 2 ^ 64 - 2 ^ 31 ≤ len) ∧
            ((-1 : Int) = -1 → len = 18446744073709551615)) ∧
      ((pocketfft_plan_dft_1d (State.sample ℚ ℚ) 16 (-1) 64 128 (-1) 0).1.plans 16).bind
          pocketfft_plan_s.n = some 18446744073709551615 :=
  ⟨by decide, by decide, by decide,
    plan_dft_1d_length_wraps (State.sample ℚ ℚ) 16 (by decide) (-1) (by decide) (by decide)
      64 128 (-1) 0, rfl⟩

end Creation

/-! ## Execution and destruction -/

section Execution

variable {C F : Type}

theorem elem_addr_complex (base i : Nat) :
    elem_addr base (sizeof_complex_float : Int) i = base + 8 * i := by
  unfold elem_addr sizeof_complex_float sizeof_float
  omega

/-- A store leaves every address that is not one of its element addresses as it was. -/
theorem store_frame (mem : Nat → C) (base : Nat) (stride : Int) (y : Nat → C) (n a : Nat)
    (h : ∀ k, k < n → a ≠ elem_addr base stride k) :
    store mem base stride y n a = mem a := by
  induction n with
  | zero => rfl
  | succ m ih =>
    rw [store, Function.update_noteq (h m (Nat.lt_succ_self m))]
    exact ih (fun k hk => h k (Nat.lt_succ_of_lt hk))

/-- A store at the complex stride puts `y k` at element `k`. -/
theorem store_complex_at (mem : Nat → C) (base : Nat) (y : Nat → C) (n k : Nat) (hk : k < n) :
    store mem base (sizeof_complex_float : Int) y n (base + 8 * k) = y k := by
  induction n with
  | zero => omega
  | succ m ih =>
    rw [store, elem_addr_complex]
    by_cases hkm : k = m
    · subst hkm
      exact Function.update_same _ _ _
    · rw [Function.update_noteq (by omega)]
      exact ih (by omega)

/-- The samples loaded depend only on the cells at the element addresses. -/
theorem load_congr (m1 m2 : Nat → C) (base : Nat) (stride : Int) (n : Nat)
    (h : ∀ k, k < n → m1 (elem_addr base stride k) = m2 (elem_addr base stride k)) :
    load m1 base stride n = load m2 base stride n := by
  unfold load
  apply List.map_congr_left
  intro k hk
  exact h k (List.mem_range.mp hk)

/-- The state after `pocketfft_execute` on a non-null handle to a complete record. -/
theorem execute_ok [One F] (xfm : Transform C F) (st : State C F) {plan : Nat} (hp : plan ≠ 0)
    {n i o : Nat} {fwd : Bool}
    (hrec : st.plans plan = some { n := some n, in_ := some i, out := some o, forward := some fwd }) :
    pocketfft_execute xfm st plan =
      some { st with
        mem := store st.mem o (sizeof_complex_float : Int)
          (xfm { shape := [n], stride_in := [8], stride_out := [8], axes := [0], forward := fwd,
                 data_in := i, data_out := o, fct := 1 }
            (load st.mem i (sizeof_complex_float : Int) n)) n
        c2c_calls := st.c2c_calls ++
          [{ shape := [n], stride_in := [8], stride_out := [8], axes := [0], forward := fwd,
             data_in := i, data_out := o, fct := 1 }] } := by
  simp [pocketfft_execute, hp, hrec, c2c, sizeof_complex_float, sizeof_float]

/-- Executing a plan changes no cell outside the element addresses of its output buffer. -/
theorem execute_mem_frame [One F] (xfm : Transform C F) (st st1 : State C F) {plan : Nat}
    (hp : plan ≠ 0) {n i o : Nat} {fwd : Bool}
    (hrec : st.plans plan = some { n := some n, in_ := some i, out := some o, forward := some fwd })
    (h1 : pocketfft_execute xfm st plan = some st1) (a : Nat)
    (ha : ∀ k, k < n → a ≠ o + 8 * k) : st1.mem a = st.mem a := by
  rw [execute_ok xfm st hp hrec] at h1
  cases h1
  exact store_frame _ _ _ _ _ _ (fun k hk => by rw [elem_addr_complex]; exact ha k hk)

/-- Executing a plan changes neither the plan records nor the heap blocks. -/
theorem execute_heap_frame [One F] (xfm : Transform C F) (st st1 : State C F) {plan : Nat}
    (hp : plan ≠ 0) {n i o : Nat} {fwd : Bool}
    (hrec : st.plans plan = some { n := some n, in_ := some i, out := some o, forward := some fwd })
    (h1 : pocketfft_execute xfm st plan = some st1) :
    st1.plans = st.plans ∧ st1.blocks = st.blocks := by
  rw [execute_ok xfm st hp hrec] at h1
  cases h1
  exact ⟨rfl, rfl⟩

/-- The memory after creating a plan and executing it at once. -/
theorem execute_after_create [One F] (xfm : Transform C F) (st : State C F) {r : Nat}
    (hr : r ≠ 0) (n : Int) (in_ out : Nat) (sign : Int) (flags : Nat) :
    ∃ s : State C F,
      pocketfft_execute xfm (pocketfft_plan_dft_1d st r n in_ out sign flags).1
          (pocketfft_plan_dft_1d st r n in_ out sign flags).2 = some s ∧
        s.mem = store st.mem out (sizeof_complex_float : Int)
          (xfm { shape := [size_t_of_int n], stride_in := [8], stride_out := [8], axes := [0],
                 forward := decide (sign = -1), data_in := in_, data_out := out, fct := 1 }
            (load st.mem in_ (sizeof_complex_float : Int) (size_t_of_int n))) (size_t_of_int n) := by
  have hp : (pocketfft_plan_dft_1d st r n in_ out sign flags).2 ≠ 0 := by
    rw [plan_dft_1d_handle st hr]
    exact hr
  have e := execute_ok xfm _ hp (plan_dft_1d_record st hr n in_ out sign flags)
  rw [plan_dft_1d_mem] at e
  exact ⟨_, e, rfl⟩

/-- C2: for a non-null handle to a plan record `(n, in, out, forward)`,
`pocketfft_execute` returns after exactly one more kernel call, whose arguments
are the shape `[n]`, input and output stride `[8]` (one complex element: two
4-byte floats), the axes `[0]`, the plan's `forward`, `in` and `out`, and the
scale factor `1`. -/
theorem execute_calls_kernel_once [One F] (xfm : Transform C F) (st : State C F) (plan : Nat)
    (hp : plan ≠ 0) (n i o : Nat) (fwd : Bool)
    (hrec : st.plans plan = some { n := some n, in_ := some i, out := some o, forward := some fwd }) :
    ∃ st1 : State C F,
      pocketfft_execute xfm st plan = some st1 ∧
        st1.c2c_calls = st.c2c_calls ++
          [{ shape := [n], stride_in := [8], stride_out := [8], axes := [0], forward := fwd,
             data_in := i, data_out := o, fct := 1 }] ∧
        (8 : Int) = sizeof_complex_float ∧ sizeof_complex_float = 2 * sizeof_float ∧
        sizeof_float * 8 = 32 := by
  rw [execute_ok xfm st hp hrec]
  exact ⟨_, rfl, rfl, rfl, rfl, rfl⟩

/-- The kernel call made for the forward plan of length two of the sample state. -/
theorem execute_calls_kernel_once_sample :
    (16 : Nat) ≠ 0 ∧
      State.planned.plans 16 =
        some { n := some 2, in_ := some 64, out := some 128, forward := some true } ∧
      ∃ st1 : State ℚ ℚ,
        pocketfft_execute dft2 State.planned 16 = some st1 ∧
          st1.c2c_calls = State.planned.c2c_calls ++
            [{ shape := [2], stride_in := [8], stride_out := [8], axes := [0], forward := true,
               data_in := 64, data_out := 128, fct := 1 }] ∧
          (8 : Int) = sizeof_complex_float ∧ sizeof_complex_float = 2 * sizeof_float ∧
          sizeof_float * 8 = 32 :=
  ⟨by decide, rfl, execute_calls_kernel_once dft2 State.planned 16 (by decide) 2 64 128 true rfl⟩

/-- C4: on the null handle, `pocketfft_execute` and `pocketfft_destroy_plan` both
return normally with the state exactly as it was: no kernel call, no cell
written, no block allocated or released. -/
theorem null_handle_is_noop [One F] (xfm : Transform C F) (st : State C F) :
    pocketfft_execute xfm st 0 = some st ∧ pocketfft_destroy_plan st 0 = some st :=
  ⟨rfl, rfl⟩

/-- C8: for a non-null plan whose input and output buffers are disjoint, two
successive calls of `pocketfft_execute` both return; the memory after the second
call equals the memory after the first (in particular the output buffer), and
both calls leave the plan records, the heap and every cell of the input buffer
unchanged. -/
theorem execute_twice_same_output [One F] (xfm : Transform C F) (st : State C F) (plan : Nat)
    (hp : plan ≠ 0) (n i o : Nat) (fwd : Bool)
    (hrec : st.plans plan = some { n := some n, in_ := some i, out := some o, forward := some fwd })
    (hdisj : i + 8 * n ≤ o ∨ o + 8 * n ≤ i) :
    ∃ st1 st2 : State C F,
      pocketfft_execute xfm st plan = some st1 ∧
        pocketfft_execute xfm st1 plan = some st2 ∧
        (∀ k, k < n → st2.mem (o + 8 * k) = st1.mem (o + 8 * k)) ∧
        st2.mem = st1.mem ∧
        st1.plans = st.plans ∧ st2.plans = st.plans ∧
        (∀ a, i ≤ a → a < i + 8 * n → st1.mem a = st.mem a ∧ st2.mem a = st.mem a) := by
  have hin : ∀ (s : State C F), s.plans plan = st.plans plan →
      ∀ s1, pocketfft_execute xfm s plan = some s1 →
        ∀ a, i ≤ a → a < i + 8 * n → s1.mem a = s.mem a := by
    intro s hs s1 h1 a ha1 ha2
    exact execute_mem_frame xfm s s1 hp (hs.trans hrec) h1 a (fun k hk => by omega)
  have e1 := execute_ok xfm st hp hrec
  obtain ⟨hpl1, -⟩ := execute_heap_frame xfm st _ hp hrec e1
  have hrec1 := (congrFun hpl1 plan).trans hrec
  have e2 := execute_ok xfm _ hp hrec1
  obtain ⟨hpl2, -⟩ := execute_heap_frame xfm _ _ hp hrec1 e2
  have hload : load (store st.mem o (sizeof_complex_float : Int)
        (xfm { shape := [n], stride_in := [8], stride_out := [8], axes := [0], forward := fwd,
               data_in := i, data_out := o, fct := 1 }
          (load st.mem i (sizeof_complex_float : Int) n)) n) i (sizeof_complex_float : Int) n =
      load st.mem i (sizeof_complex_float : Int) n := by
    apply load_congr
    intro k hk
    apply store_frame
    intro j hj
    rw [elem_addr_complex, elem_addr_complex]
    omega
  have hmem : ∀ (y : Nat → C) (a : Nat),
      store (store st.mem o (sizeof_complex_float : Int) y n) o (sizeof_complex_float : Int) y n a =
        store st.mem o (sizeof_complex_float : Int) y n a := by
    intro y a
    by_cases ha : ∃ k, k < n ∧ a = o + 8 * k
    · obtain ⟨k, hk, rfl⟩ := ha
      rw [store_complex_at _ _ _ _ _ hk, store_complex_at _ _ _ _ _ hk]
    · apply store_frame
      intro k hk hak
      exact ha ⟨k, hk, by rw [hak, elem_addr_complex]⟩
  have h21 : ∀ a, (store (store st.mem o (sizeof_complex_float : Int)
        (xfm { shape := [n], stride_in := [8], stride_out := [8], axes := [0], forward := fwd,
               data_in := i, data_out := o, fct := 1 }
          (load st.mem i (sizeof_complex_float : Int) n)) n) o (sizeof_complex_float : Int)
        (xfm { shape := [n], stride_in := [8], stride_out := [8], axes := [0], forward := fwd,
               data_in := i, data_out := o, fct := 1 }
          (load (store st.mem o (sizeof_complex_float : Int)
            (xfm { shape := [n], stride_in := [8], stride_out := [8], axes := [0], forward := fwd,
                   data_in := i, data_out := o, fct := 1 }
              (load st.mem i (sizeof_complex_float : Int) n)) n) i
            (sizeof_complex_float : Int) n)) n) a =
      store st.mem o (sizeof_complex_float : Int)
        (xfm { shape := [n], stride_in := [8], stride_out := [8], axes := [0], forward := fwd,
               data_in := i, data_out := o, fct := 1 }
          (load st.mem i (sizeof_complex_float : Int) n)) n a := by
    intro a
    rw [hload]
    exact hmem _ a
  refine ⟨_, _, e1, e2, fun k _ => h21 _, funext h21, hpl1, hpl2.trans hpl1, ?_⟩
  intro a ha1 ha2
  have s1 := hin st rfl _ e1 a ha1 ha2
  have s2 := hin _ (congrFun hpl1 plan) _ e2 a ha1 ha2
  exact ⟨s1, s2.trans s1⟩

/-- Two executions of the forward plan of length two of the sample state. -/
theorem execute_twice_same_output_sample :
    (16 : Nat) ≠ 0 ∧
      State.planned.plans 16 =
        some { n := some 2, in_ := some 64, out := some 128, forward := some true } ∧
      (64 + 8 * 2 ≤ 128 ∨ 128 + 8 * 2 ≤ 64) ∧
      ∃ st1 st2 : State ℚ ℚ,
        pocketfft_execute dft2 State.planned 16 = some st1 ∧
          pocketfft_execute dft2 st1 16 = some st2 ∧
          (∀ k, k < 2 → st2.mem (128 + 8 * k) = st1.mem (128 + 8 * k)) ∧
          st2.mem = st1.mem ∧
          st1.plans = State.planned.plans ∧ st2.plans = State.planned.plans ∧
          (∀ a, 64 ≤ a → a < 64 + 8 * 2 →
            st1.mem a = State.planned.mem a ∧ st2.mem a = State.planned.mem a) :=
  ⟨by decide, rfl, by decide,
    execute_twice_same_output dft2 State.planned 16 (by decide) 2 64 128 true rfl (by decide)⟩

/-- C9: plan creation and plan destruction leave every buffer cell unchanged.
Creation touches the heap only at the returned handle (the new record), and
makes no kernel call. Destruction is defined on the null handle and on every
live block, releases the block at the handle and no other, so never a buffer
the plan refers to. Execution of a plan changes only cells of that plan's
output buffer. -/
theorem buffer_frame [One F] (xfm : Transform C F) (st : State C F) :
    (∀ (r : Nat) (n : Int) (in_ out : Nat) (sign : Int) (flags : Nat),
        (pocketfft_plan_dft_1d st r n in_ out sign flags).1.mem = st.mem ∧
        (pocketfft_plan_dft_1d st r n in_ out sign flags).1.c2c_calls = st.c2c_calls ∧
        ∀ a, a ≠ (pocketfft_plan_dft_1d st r n in_ out sign flags).2 →
          (pocketfft_plan_dft_1d st r n in_ out sign flags).1.blocks a = st.blocks a ∧
          (pocketfft_plan_dft_1d st r n in_ out sign flags).1.plans a = st.plans a) ∧
      (∀ plan : Nat, (plan = 0 ∨ (st.blocks plan).isSome) →
        ∃ st1, pocketfft_destroy_plan st plan = some st1) ∧
      (∀ (plan : Nat) (st1 : State C F), pocketfft_destroy_plan st plan = some st1 →
        st1.mem = st.mem ∧ st1.c2c_calls = st.c2c_calls ∧
        (plan ≠ 0 → st1.blocks plan = none ∧ st1.plans plan = none) ∧
        ∀ a, a ≠ plan → st1.blocks a = st.blocks a ∧ st1.plans a = st.plans a) ∧
      (∀ (plan n i o : Nat) (fwd : Bool), plan ≠ 0 →
        st.plans plan = some { n := some n, in_ := some i, out := some o, forward := some fwd } →
        ∃ st1, pocketfft_execute xfm st plan = some st1 ∧
          st1.blocks = st.blocks ∧ st1.plans = st.plans ∧
          ∀ a, (a < o ∨ o + 8 * n ≤ a) → st1.mem a = st.mem a) := by
  refine ⟨?_, ?_, ?_, ?_⟩
  · intro r n in_ out sign flags
    by_cases hr : r = 0
    · subst hr
      simp [plan_dft_1d_null]
    · rw [plan_dft_1d_ok st hr]
      refine ⟨rfl, rfl, fun a ha => ⟨?_, ?_⟩⟩
      · exact Function.update_noteq ha _ _
      · exact Function.update_noteq ha _ _
  · rintro plan (rfl | h)
    · exact ⟨st, rfl⟩
    · by_cases hp : plan = 0
      · subst hp
        exact ⟨st, rfl⟩
      · simp [pocketfft_destroy_plan, free, hp, h]
  · intro plan st1 h
    by_cases hp : plan = 0
    · subst hp
      simp [pocketfft_destroy_plan] at h
      subst h
      simp
    · by_cases hl : (st.blocks plan).isSome
      · simp [pocketfft_destroy_plan, free, hp, hl] at h
        subst h
        refine ⟨rfl, rfl, fun _ => ⟨?_, ?_⟩, fun a ha => ⟨?_, ?_⟩⟩
        · exact Function.update_same _ _ _
        · exact Function.update_same _ _ _
        · exact Function.update_noteq ha _ _
        · exact Function.update_noteq ha _ _
      · simp [pocketfft_destroy_plan, free, hp, hl] at h
  · intro plan n i o fwd hp hrec
    have e1 := execute_ok xfm st hp hrec
    obtain ⟨hpl, hbl⟩ := execute_heap_frame xfm st _ hp hrec e1
    refine ⟨_, e1, hbl, hpl, fun a ha => ?_⟩
    exact execute_mem_frame xfm st _ hp hrec e1 a (fun k hk => by omega)

end Execution

/-! ## The round trip through the exact transform -/

section RoundTrip

variable {C F : Type}

/-- Orthogonality of the powers of a primitive root of unity. -/
theorem root_orthogonal [Field C] {w : C} {N : Nat} (hN : 0 < N) (hw : IsPrimitiveRoot w N)
    {j l : Nat} (hj : j < N) (hl : l < N) :
    Finset.sum (Finset.range N) (fun k => (w⁻¹) ^ (j * k) * w ^ (k * l)) =
      if j = l then (N : C) else 0 := by
  have hw0 : w ≠ 0 := hw.ne_zero (Nat.pos_iff_ne_zero.mp hN)
  have hterm : ∀ k, (w⁻¹) ^ (j * k) * w ^ (k * l) = ((w⁻¹) ^ j * w ^ l) ^ k := by
    intro k
    rw [mul_pow, ← pow_mul, ← pow_mul, mul_comm l k]
  simp only [hterm]
  by_cases hjl : j = l
  · subst hjl
    have h1 : (w⁻¹) ^ j * w ^ j = 1 := by
      rw [inv_pow]
      exact inv_mul_cancel₀ (pow_ne_zero _ hw0)
    simp only [h1, one_pow, Finset.sum_const, Finset.card_range, nsmul_eq_mul, mul_one, if_true]
  · have hne : (w⁻¹) ^ j * w ^ l ≠ 1 := by
      intro h
      apply hjl
      apply hw.pow_inj hj hl
      rw [inv_pow] at h
      have h2 := congrArg (fun z => w ^ j * z) h
      simp only [mul_one] at h2
      rw [← mul_assoc, mul_inv_cancel₀ (pow_ne_zero _ hw0), one_mul] at h2
      exact h2.symm
    have hone : ((w⁻¹) ^ j * w ^ l) ^ N = 1 := by
      rw [mul_pow, ← pow_mul, ← pow_mul, mul_comm j N, mul_comm l N, pow_mul, pow_mul,
        inv_pow, hw.pow_eq_one]
      simp
    rw [geom_sum_eq hne, hone]
    simp [hjl]

theorem getD_map_range (f : Nat → C) (d : C) {N k : Nat} (hk : k < N) :
    ((List.range N).map f).getD k d = f k := by
  rw [List.getD_eq_getElem _ _ (by simpa using hk)]
  simp

theorem getD_load (mem : Nat → C) (base : Nat) (stride : Int) (d : C) {N k : Nat} (hk : k < N) :
    (load mem base stride N).getD k d = mem (elem_addr base stride k) :=
  getD_map_range _ d hk

theorem length_load (mem : Nat → C) (base : Nat) (stride : Int) (N : Nat) :
    (load mem base stride N).length = N := by
  simp [load]

/-- The inverse transform of the forward transform of `x`, both at scale one,
is `N * x`. -/
theorem dft_inverse_forward [Field C] [Monoid F] [MulAction F C] (root : Nat → C) {N : Nat}
    (hN : 0 < N) (hroot : IsPrimitiveRoot (root N) N) (x : List C) (hx : x.length = N)
    (a1 a2 : C2CArgs F) (h1 : a1.forward = true) (h2 : a2.forward = false)
    (hf1 : a1.fct = 1) (hf2 : a2.fct = 1) {l : Nat} (hl : l < N) :
    dft root a2 ((List.range N).map (dft root a1 x)) l = (N : C) * x.getD l 0 := by
  have hfwd : ∀ k, dft root a1 x k =
      Finset.sum (Finset.range N) (fun j => x.getD j 0 * ((root N)⁻¹) ^ (j * k)) := by
    intro k
    simp only [dft, h1, hf1, hx, one_smul, if_true]
  have hinv : dft root a2 ((List.range N).map (dft root a1 x)) l =
      Finset.sum (Finset.range N)
        (fun k => ((List.range N).map (dft root a1 x)).getD k 0 * (root N) ^ (k * l)) := by
    simp [dft, h2, hf2]
  rw [hinv]
  have hstep : ∀ k ∈ Finset.range N,
      ((List.range N).map (dft root a1 x)).getD k 0 * (root N) ^ (k * l) =
      Finset.sum (Finset.range N)
        (fun j => x.getD j 0 * (((root N)⁻¹) ^ (j * k) * (root N) ^ (k * l))) := by
    intro k hk
    rw [getD_map_range _ _ (Finset.mem_range.mp hk), hfwd, Finset.sum_mul]
    apply Finset.sum_congr rfl
    intro j _
    rw [mul_assoc]
  rw [Finset.sum_congr rfl hstep, Finset.sum_comm]
  have hcol : ∀ j ∈ Finset.range N,
      Finset.sum (Finset.range N)
        (fun k => x.getD j 0 * (((root N)⁻¹) ^ (j * k) * (root N) ^ (k * l))) =
      x.getD j 0 * (if j = l then (N : C) else 0) := by
    intro j hj
    rw [← Finset.mul_sum, root_orthogonal hN hroot (Finset.mem_range.mp hj) hl]
  rw [Finset.sum_congr rfl hcol]
  simp [Finset.sum_ite_eq', hl, mul_comm]

/-- The round trip for any field with a primitive root of unity of the order of
the transform length: a forward plan from `a` to `b`, then an inverse plan of the
same length from `b` to `c`, leaves `n` times the original samples of `a` in `c`. -/
theorem roundtrip_of_primitive_root [Field C] [Monoid F] [MulAction F C] (root : Nat → C)
    (st : State C F) {r1 r2 : Nat} (hr1 : r1 ≠ 0) (hr2 : r2 ≠ 0) {n : Int} (hn1 : 1 ≤ n)
    (hn2 : n < 2 ^ 31) (hroot : IsPrimitiveRoot (root n.toNat) n.toNat) (a b c f1 f2 : Nat) :
    ∃ s2 s4 : State C F,
      pocketfft_execute (dft root) (pocketfft_plan_dft_1d st r1 n a b (-1) f1).1
          (pocketfft_plan_dft_1d st r1 n a b (-1) f1).2 = some s2 ∧
        pocketfft_execute (dft root) (pocketfft_plan_dft_1d s2 r2 n b c 1 f2).1
          (pocketfft_plan_dft_1d s2 r2 n b c 1 f2).2 = some s4 ∧
        ∀ k, k < n.toNat → s4.mem (c + 8 * k) = (n : C) * st.mem (a + 8 * k) := by
  have hN : size_t_of_int n = n.toNat := size_t_of_int_nonneg (by omega) (by omega)
  have hpos : 0 < n.toNat := by omega
  obtain ⟨s2, h2, m2⟩ := execute_after_create (dft root) st hr1 n a b (-1) f1
  obtain ⟨s4, h4, m4⟩ := execute_after_create (dft root) s2 hr2 n b c 1 f2
  refine ⟨s2, s4, h2, h4, ?_⟩
  rw [hN] at m2 m4
  intro k hk
  rw [m4, store_complex_at _ _ _ _ _ hk]
  have hload : load s2.mem b (sizeof_complex_float : Int) n.toNat =
      (List.range n.toNat).map
        (dft root
          { shape := [n.toNat], stride_in := [8], stride_out := [8], axes := [0],
            forward := decide ((-1 : Int) = -1), data_in := a, data_out := b, fct := (1 : F) }
          (load st.mem a (sizeof_complex_float : Int) n.toNat)) := by
    unfold load
    apply List.map_congr_left
    intro j hj
    rw [elem_addr_complex, m2, store_complex_at _ _ _ _ _ (List.mem_range.mp hj)]
    rfl
  have hfw : decide ((-1 : Int) = -1) = true := by decide
  have hbw : decide ((1 : Int) = -1) = false := by decide
  rw [hload, dft_inverse_forward root hpos hroot _ (length_load _ _ _ _) _ _
    hfw hbw rfl rfl hk, getD_load _ _ _ _ hk,
    elem_addr_complex]
  congr 1
  rw [← Int.cast_natCast, Int.toNat_of_nonneg (by omega)]

/-- C3: round-trip scaling law. With the kernel the exact unnormalized complex
discrete Fourier transform at scale one, for every length `n ≥ 1` and every
buffers `a`, `b`, `c`: executing a plan of length `n` created with `sign = -1`
from `a` to `b`, then a plan of length `n` created with `sign = +1` from `b` to
`c`, both return and leave in `c` the original samples of `a` multiplied by `n`;
for `n ≥ 2` that differs from the original at every non-zero sample. -/
theorem roundtrip_scaling (st : State ℂ ℝ) (r1 r2 : Nat) (hr1 : r1 ≠ 0) (hr2 : r2 ≠ 0) (n : Int)
    (hn1 : 1 ≤ n) (hn2 : n < 2 ^ 31) (a b c f1 f2 : Nat) :
    ∃ s2 s4 : State ℂ ℝ,
      pocketfft_execute (dft (fun N : Nat => Complex.exp (2 * Real.pi * Complex.I / N)))
          (pocketfft_plan_dft_1d st r1 n a b (-1) f1).1
          (pocketfft_plan_dft_1d st r1 n a b (-1) f1).2 = some s2 ∧
        pocketfft_execute (dft (fun N : Nat => Complex.exp (2 * Real.pi * Complex.I / N)))
          (pocketfft_plan_dft_1d s2 r2 n b c 1 f2).1
          (pocketfft_plan_dft_1d s2 r2 n b c 1 f2).2 = some s4 ∧
        (∀ k, k < n.toNat → s4.mem (c + 8 * k) = (n : ℂ) * st.mem (a + 8 * k)) ∧
        (2 ≤ n → ∀ k, k < n.toNat → st.mem (a + 8 * k) ≠ 0 →
          s4.mem (c + 8 * k) ≠ st.mem (a + 8 * k)) := by
  have hroot : IsPrimitiveRoot
      ((fun N : Nat => Complex.exp (2 * Real.pi * Complex.I / N)) n.toNat) n.toNat :=
    Complex.isPrimitiveRoot_exp n.toNat (by omega)
  obtain ⟨s2, s4, h2, h4, hscale⟩ :=
    roundtrip_of_primitive_root (F := ℝ)
      (fun N : Nat => Complex.exp (2 * Real.pi * Complex.I / N)) st hr1 hr2 hn1 hn2 hroot
      a b c f1 f2
  refine ⟨s2, s4, h2, h4, hscale, ?_⟩
  intro hn k hk hx heq
  rw [hscale k hk] at heq
  have h1 : ((n : ℂ) - 1) * st.mem (a + 8 * k) = 0 := by
    rw [sub_mul, heq, one_mul, sub_self]
  rcases mul_eq_zero.mp h1 with h | h
  · have h3 : (n : ℂ) = ((1 : Int) : ℂ) := by
      rw [Int.cast_one]
      exact sub_eq_zero.mp h
    have h4 : n = 1 := Int.cast_injective h3
    omega
  · exact hx h

/-- The round trip at length two on a concrete state: the samples `3, 5` at
address 64 come back as `6, 10` at address 256. -/
theorem roundtrip_scaling_sample :
    ∃ s2 s4 : State ℂ ℝ,
      pocketfft_execute (dft (fun N : Nat => Complex.exp (2 * Real.pi * Complex.I / N)))
          (pocketfft_plan_dft_1d (State.sample ℂ ℝ) 16 2 64 128 (-1) 0).1
          (pocketfft_plan_dft_1d (State.sample ℂ ℝ) 16 2 64 128 (-1) 0).2 = some s2 ∧
        pocketfft_execute (dft (fun N : Nat => Complex.exp (2 * Real.pi * Complex.I / N)))
          (pocketfft_plan_dft_1d s2 48 2 128 256 1 0).1
          (pocketfft_plan_dft_1d s2 48 2 128 256 1 0).2 = some s4 ∧
        s4.mem 256 = 6 ∧ s4.mem 264 = 10 := by
  obtain ⟨s2, s4, h2, h4, hscale, -⟩ :=
    roundtrip_scaling (State.sample ℂ ℝ) 16 48 (by decide) (by decide) 2 (by decide) (by decide)
      64 128 256 0 0
  refine ⟨s2, s4, h2, h4, ?_, ?_⟩
  · have h := hscale 0 (by decide)
    simp only [Nat.mul_zero, Nat.add_zero] at h
    rw [h]
    simp [State.sample]
    norm_num
  · have h := hscale 1 (by decide)
    rw [h]
    simp [State.sample]
    norm_num

/-- The transform of the samples `3, 5` evaluates to `8, -2`. -/
theorem execute_sample_output :
    (pocketfft_execute dft2 State.planned 16).map (fun s => (s.mem 128, s.mem 136, s.mem 64)) =
      some (8, -2, 3) := by
  have hrec : State.planned.plans 16 =
      some { n := some 2, in_ := some 64, out := some 128, forward := some true } := rfl
  have hmem : State.planned.mem = (State.sample ℚ ℚ).mem := rfl
  rw [execute_ok dft2 State.planned (by decide) hrec, hmem]
  simp [store, load, dft2, dft, elem_addr, sizeof_complex_float, sizeof_float, State.sample,
    Finset.sum_range_succ, Function.update, List.range_succ]
  norm_num

end RoundTrip

end PocketFFT
